import Mathlib

set_option maxRecDepth 8000

/-!
Verification of the streaming endpoint detector of the voice-chess
repository against its specification.

The detector lives in `src/audio_utils.py` (`rms16`, `listen`) with a
near-identical copy in `local_chess_client.py`.  The embedding below
translates that code shallowly:

* A PCM frame is modelled by the list of its decoded 16-bit samples
  (`Frame := List ℤ`); a frame of `n` samples occupies `2 * n` bytes.
* `collections.deque(maxlen = n)` is modelled by `pushEvict`.
* The external `webrtcvad.Vad.is_speech` primitive is an arbitrary
  parameter `vad : Frame → Bool` (the classifier is pure and
  stateless, so a function models it faithfully).
* Wall-clock time: the frame source is real-time paced (one frame per
  `FRAME_DURATION` ms), so the `time.time()` value observed while the
  `k`-th frame after the start trigger is processed equals the trigger
  time plus `k * FRAME_DURATION` milliseconds.  States store the frame
  index at the trigger (`chunk_start_time`), and elapsed time is
  `(i - t) * FRAME_DURATION` ms.
* Float comparisons of the source are embedded as exact comparisons.
  `votes > 0.55 * len` becomes `55 * len < 100 * votes` (for the
  window sizes that occur, the float expressions `0.55 * len` and
  `0.8 * len` never fall close enough to an integer for double
  rounding to matter).  `rms16(x) >= c` for a threshold `c ≥ 0`
  becomes `c^2 * len ≤ sumSq x ∧ len ≠ 0`, since
  `rms16 x = sqrt (sumSq x / len)` and squaring preserves order on
  nonnegative reals; `len = 0` gives `rms16 = 0.0 < c`.
-/

namespace VoiceChess

/-- One audio frame, as the list of its decoded signed 16-bit PCM
samples.  The byte string of the Python code is the little-endian
encoding of this list, `2 *` as many bytes as samples. -/
abbrev Frame := List ℤ

/-- Model of `collections.deque(maxlen := cap)`: append `f` on the
right, evicting from the left whatever exceeds the capacity. -/
def pushEvict (cap : ℕ) (buf : List Frame) (f : Frame) : List Frame :=
  let b := buf ++ [f]
  if cap < b.length then b.drop (b.length - cap) else b

/-- Sum of the squares of the samples of a buffer.  `rms16` of the
Python code returns `sqrt (sumSq l / l.length)`. -/
def sumSq (l : List ℤ) : ℤ :=
  (l.map fun x => x * x).sum

/-- Mean square of a buffer (`0` for an empty buffer): the square of
the value `rms16` returns on the corresponding byte string. -/
def rmsSq (l : List ℤ) : ℚ :=
  if l.length = 0 then 0 else (sumSq l : ℚ) / (l.length : ℚ)

/-- The last `n` elements of a list (all of it if `n` is larger). -/
def lastN (n : ℕ) (l : List α) : List α :=
  l.drop (l.length - n)

/-- Reassemble one signed 16-bit sample from two little-endian bytes,
as `np.frombuffer(·, dtype=np.int16)` does. -/
def int16OfPair (lo hi : ℕ) : ℤ :=
  let u : ℕ := lo % 256 + 256 * (hi % 256)
  if u < 32768 then (u : ℤ) else (u : ℤ) - 65536

/-- Decode a little-endian byte string into its 16-bit samples.
`none` models the `ValueError` that `np.frombuffer` raises when the
buffer length is not a multiple of the 2-byte item size. -/
def decodeInt16 : List ℕ → Option (List ℤ)
  | [] => some []
  | [_] => none
  | lo :: hi :: rest =>
    match decodeInt16 rest with
    | none => none
    | some s => some (int16OfPair lo hi :: s)

/-- Little-endian byte encoding of a list of 16-bit samples (the
inverse of `decodeInt16` on in-range samples); used to relate the
byte-level `rms16` to the sample-level `rmsSq`. -/
def encode16 : List ℤ → List ℕ
  | [] => []
  | x :: rest =>
    let u : ℕ := (x % 65536).toNat
    u % 256 :: u / 256 :: encode16 rest

/-- The mutable locals of one `listen()` call (the variable set is
identical in `audio_utils.py` and `local_chess_client.py`):
`triggered`, `pre_buffer_frames`, `post_buffer_frames`,
`voiced_frames`, and `chunk_start_time` (stored as the index of the
frame being processed when the start trigger fired; `none` models
Python's `None`). -/
structure ListenState where
  triggered : Bool
  pre_buffer_frames : List Frame
  post_buffer_frames : List Frame
  voiced_frames : List Frame
  chunk_start_time : Option ℕ
deriving DecidableEq, Repr

/-- The state at the top of `listen()`. -/
def initState : ListenState :=
  ListenState.mk false [] [] [] none

/-- Result of one iteration of the `for frame in frames` loop body,
stopping (for `ended`) just before the duration/energy validation:
`ended frames tlen_ms s` carries `voiced_frames` after the post-buffer
extension, `total_chunk_len` in ms, and the updated locals. -/
inductive StepRes where
  | cont (s : ListenState)
  | ended (frames : List Frame) (tlen_ms : ℕ) (s : ListenState)
deriving DecidableEq, Repr

/-- The locals after one loop iteration, whichever branch was taken. -/
def resState : StepRes → ListenState
  | StepRes.cont s => s
  | StepRes.ended _ _ s => s

/-- The frame list handed to the validation of an `ended` iteration
(`[]` for a continuing iteration). -/
def resFrames : StepRes → List Frame
  | StepRes.cont _ => []
  | StepRes.ended fr _ _ => fr

/-- The `total_chunk_len` (ms) handed to the validation of an `ended`
iteration (`0` for a continuing iteration). -/
def resTlen : StepRes → ℕ
  | StepRes.cont _ => 0
  | StepRes.ended _ t _ => t

/-- Is this iteration result an end-of-utterance trigger? -/
def isEnded : StepRes → Bool
  | StepRes.cont _ => false
  | StepRes.ended _ _ _ => true

/-- Reachability invariant of the loop locals: while collecting, the
pre-roll deque is empty (it was cleared at the start trigger); while
idle, the collected storage and the post-roll deque are empty. -/
def stateInv (s : ListenState) : Prop :=
  (s.triggered = true → s.pre_buffer_frames = []) ∧
  (s.triggered = false → s.voiced_frames = [] ∧ s.post_buffer_frames = [])

namespace audio_utils

/-! Constants of `src/audio_utils.py`.  Durations are kept in integer
milliseconds: `MAX_CHUNK_SEC = 5` becomes `MAX_CHUNK_MS = 5000` and
`MIN_CHUNK_SEC = 0.5` becomes `MIN_CHUNK_MS = 500`.  The vote
thresholds `0.55` and `0.80` are kept as percentages. -/

def RATE : ℕ := 16000
def FRAME_DURATION : ℕ := 30
def PRE_BUFFER_MS : ℕ := 800
def POST_BUFFER_MS : ℕ := 1200
def MAX_CHUNK_MS : ℕ := 5000
def MIN_CHUNK_MS : ℕ := 500
def TRIGGER_THRESHOLD_START_x100 : ℕ := 55
def TRIGGER_THRESHOLD_END_x100 : ℕ := 80
def FRAME_RMS_MIN : ℤ := 400
def CHUNK_RMS_MIN : ℤ := 300

/-- `pre_n = max(1, int(PRE_BUFFER_MS / FRAME_DURATION))`; Python
`int` truncates, which on nonnegative arguments is `Nat` division. -/
def pre_n : ℕ := max 1 (PRE_BUFFER_MS / FRAME_DURATION)

/-- `post_n = max(1, int(POST_BUFFER_MS / FRAME_DURATION))`. -/
def post_n : ℕ := max 1 (POST_BUFFER_MS / FRAME_DURATION)

/-- `rms16(f) >= FRAME_RMS_MIN`, embedded squared: the mean square of
the samples is at least `400^2`, and the frame is nonempty (an empty
frame has `rms16 = 0.0 < 400`). -/
def frame_energy_ok (f : Frame) : Bool :=
  decide (f.length ≠ 0) && decide (FRAME_RMS_MIN ^ 2 * (f.length : ℤ) ≤ sumSq f)

/-- `rms16(chunk) >= CHUNK_RMS_MIN`, embedded squared like
`frame_energy_ok`. -/
def chunk_energy_ok (l : List ℤ) : Bool :=
  decide (l.length ≠ 0) && decide (CHUNK_RMS_MIN ^ 2 * (l.length : ℤ) ≤ sumSq l)

/-- One iteration of the loop body of `listen` for the frame `f`
arriving with index `i` (the `vad_flag`/`energy_ok` locals of the
source are computed but never read, and are omitted).

Idle branch: push into the pre-roll deque, count `is_speech` votes
over it, and trigger when the deque is full and
`votes > 0.55 * len`; on trigger, extend `voiced_frames` with the
whole deque, clear the deque, and record the start time.

Collecting branch: append to `voiced_frames`, push into the post-roll
deque, count the frames of the deque that are not (voiced and
energetic), and end when the deque is full and
`votes > 0.80 * len`, or elapsed time reached `MAX_CHUNK_SEC`; on
end, `voiced_frames.extend(post_buffer_frames)` runs (the source
appends the deque contents a second time). -/
def stepF (vad : Frame → Bool) (i : ℕ) (s : ListenState) (f : Frame) : StepRes :=
  if s.triggered = false then
    let pre2 := pushEvict pre_n s.pre_buffer_frames f
    let voiced_votes := pre2.countP vad
    if pre2.length = pre_n ∧ TRIGGER_THRESHOLD_START_x100 * pre2.length < 100 * voiced_votes then
      StepRes.cont (ListenState.mk true [] s.post_buffer_frames (s.voiced_frames ++ pre2) (some i))
    else
      StepRes.cont (ListenState.mk false pre2 s.post_buffer_frames s.voiced_frames s.chunk_start_time)
  else
    let voiced2 := s.voiced_frames ++ [f]
    let post2 := pushEvict post_n s.post_buffer_frames f
    let end_unvoiced_votes := post2.countP fun g => !(vad g && frame_energy_ok g)
    let chunk_len_ms := (i - s.chunk_start_time.getD 0) * FRAME_DURATION
    if (post2.length = post_n ∧ TRIGGER_THRESHOLD_END_x100 * post2.length < 100 * end_unvoiced_votes)
        ∨ MAX_CHUNK_MS ≤ chunk_len_ms then
      StepRes.ended (voiced2 ++ post2) chunk_len_ms
        (ListenState.mk true s.pre_buffer_frames post2 (voiced2 ++ post2) s.chunk_start_time)
    else
      StepRes.cont (ListenState.mk true s.pre_buffer_frames post2 voiced2 s.chunk_start_time)

/-- The `else` branch of the validation: `triggered = False`,
`voiced_frames = []`, `post_buffer_frames.clear()`.  The source does
not touch `pre_buffer_frames` (already cleared at the trigger) and
leaves `chunk_start_time` at its stale value. -/
def discardReset (s : ListenState) : ListenState :=
  ListenState.mk false s.pre_buffer_frames [] [] s.chunk_start_time

/-- The validation of a completed span:
`total_chunk_len >= MIN_CHUNK_SEC and rms16(chunk) >= CHUNK_RMS_MIN`. -/
def valid_chunk (frames : List Frame) (tlen_ms : ℕ) : Bool :=
  decide (MIN_CHUNK_MS ≤ tlen_ms) && chunk_energy_ok frames.flatten

/-- The `for frame in frames` loop of `listen`, run over a finite
prefix of the frame stream: `Sum.inl chunk` if the call returned the
joined buffer within these frames (later frames are never consumed),
`Sum.inr s` with the final locals if the prefix was exhausted. -/
def runLoop (vad : Frame → Bool) : ℕ → ListenState → List Frame → (List ℤ) ⊕ ListenState
  | _, s, [] => Sum.inr s
  | i, s, f :: fs =>
    match stepF vad i s f with
    | StepRes.cont s2 => runLoop vad (i + 1) s2 fs
    | StepRes.ended frames tlen s2 =>
      if valid_chunk frames tlen then Sum.inl frames.flatten
      else runLoop vad (i + 1) (discardReset s2) fs

/-- `listen()` fed the frame prefix `fs`: the returned chunk, if the
call returns within `fs`. -/
def listen (vad : Frame → Bool) (fs : List Frame) : Option (List ℤ) :=
  match runLoop vad 0 initState fs with
  | Sum.inl c => some c
  | Sum.inr _ => none

/-- Byte-level model of `rms16` returning the square of its value:
`none` models the uncaught `ValueError` of `np.frombuffer` on a
buffer whose length is not a multiple of 2.  The two `return 0.0`
guards of the source are both present. -/
def rms16_sq (b : List ℕ) : Option ℚ :=
  if b.length = 0 then some 0
  else
    match decodeInt16 b with
    | none => none
    | some arr => if arr.length = 0 then some 0 else some (rmsSq arr)

end audio_utils

namespace local_chess_client

/-! Constants and detector of `local_chess_client.py`, translated
independently of (but identically to) `audio_utils.py`; the source
files differ only in prints and the start-up beep. -/

def RATE : ℕ := 16000
def FRAME_DURATION : ℕ := 30
def PRE_BUFFER_MS : ℕ := 800
def POST_BUFFER_MS : ℕ := 1200
def MAX_CHUNK_MS : ℕ := 5000
def MIN_CHUNK_MS : ℕ := 500
def TRIGGER_THRESHOLD_START_x100 : ℕ := 55
def TRIGGER_THRESHOLD_END_x100 : ℕ := 80
def FRAME_RMS_MIN : ℤ := 400
def CHUNK_RMS_MIN : ℤ := 300

/-- `pre_n = max(1, int(PRE_BUFFER_MS / FRAME_DURATION))`. -/
def pre_n : ℕ := max 1 (PRE_BUFFER_MS / FRAME_DURATION)

/-- `post_n = max(1, int(POST_BUFFER_MS / FRAME_DURATION))`. -/
def post_n : ℕ := max 1 (POST_BUFFER_MS / FRAME_DURATION)

/-- `rms16(f) >= FRAME_RMS_MIN`, embedded squared. -/
def frame_energy_ok (f : Frame) : Bool :=
  decide (f.length ≠ 0) && decide (FRAME_RMS_MIN ^ 2 * (f.length : ℤ) ≤ sumSq f)

/-- `rms16(chunk) >= CHUNK_RMS_MIN`, embedded squared. -/
def chunk_energy_ok (l : List ℤ) : Bool :=
  decide (l.length ≠ 0) && decide (CHUNK_RMS_MIN ^ 2 * (l.length : ℤ) ≤ sumSq l)

/-- One iteration of the loop body of `local_chess_client.listen`. -/
def stepF (vad : Frame → Bool) (i : ℕ) (s : ListenState) (f : Frame) : StepRes :=
  if s.triggered = false then
    let pre2 := pushEvict pre_n s.pre_buffer_frames f
    let voiced_votes := pre2.countP vad
    if pre2.length = pre_n ∧ TRIGGER_THRESHOLD_START_x100 * pre2.length < 100 * voiced_votes then
      StepRes.cont (ListenState.mk true [] s.post_buffer_frames (s.voiced_frames ++ pre2) (some i))
    else
      StepRes.cont (ListenState.mk false pre2 s.post_buffer_frames s.voiced_frames s.chunk_start_time)
  else
    let voiced2 := s.voiced_frames ++ [f]
    let post2 := pushEvict post_n s.post_buffer_frames f
    let end_unvoiced_votes := post2.countP fun g => !(vad g && frame_energy_ok g)
    let chunk_len_ms := (i - s.chunk_start_time.getD 0) * FRAME_DURATION
    if (post2.length = post_n ∧ TRIGGER_THRESHOLD_END_x100 * post2.length < 100 * end_unvoiced_votes)
        ∨ MAX_CHUNK_MS ≤ chunk_len_ms then
      StepRes.ended (voiced2 ++ post2) chunk_len_ms
        (ListenState.mk true s.pre_buffer_frames post2 (voiced2 ++ post2) s.chunk_start_time)
    else
      StepRes.cont (ListenState.mk true s.pre_buffer_frames post2 voiced2 s.chunk_start_time)

/-- The discard branch: reset and keep listening. -/
def discardReset (s : ListenState) : ListenState :=
  ListenState.mk false s.pre_buffer_frames [] [] s.chunk_start_time

/-- `total_chunk_len >= MIN_CHUNK_SEC and overall_rms >= CHUNK_RMS_MIN`. -/
def valid_chunk (frames : List Frame) (tlen_ms : ℕ) : Bool :=
  decide (MIN_CHUNK_MS ≤ tlen_ms) && chunk_energy_ok frames.flatten

/-- The `for frame in frames` loop of `local_chess_client.listen`. -/
def runLoop (vad : Frame → Bool) : ℕ → ListenState → List Frame → (List ℤ) ⊕ ListenState
  | _, s, [] => Sum.inr s
  | i, s, f :: fs =>
    match stepF vad i s f with
    | StepRes.cont s2 => runLoop vad (i + 1) s2 fs
    | StepRes.ended frames tlen s2 =>
      if valid_chunk frames tlen then Sum.inl frames.flatten
      else runLoop vad (i + 1) (discardReset s2) fs

/-- `local_chess_client.listen()` fed the frame prefix `fs`. -/
def listen (vad : Frame → Bool) (fs : List Frame) : Option (List ℤ) :=
  match runLoop vad 0 initState fs with
  | Sum.inl c => some c
  | Sum.inr _ => none

/-- Byte-level model of `local_chess_client.rms16`, squared. -/
def rms16_sq (b : List ℕ) : Option ℚ :=
  if b.length = 0 then some 0
  else
    match decodeInt16 b with
    | none => none
    | some arr => if arr.length = 0 then some 0 else some (rmsSq arr)

end local_chess_client

/-! Concrete frames and scenarios used for counterexamples and
witnesses.  `silentF`/`voicedF` are full-size default-configuration
frames (30 ms at 16 kHz = 480 samples = 960 bytes): `silentF` is
digital silence, `voicedF` has constant amplitude 1000 (per-frame
`rms16 = 1000 ≥ FRAME_RMS_MIN`).  `vadA` is a concrete instantiation
of the external VAD that labels exactly the nonzero frames as
speech. -/

def silentF : Frame := List.replicate 480 0

def voicedF : Frame := List.replicate 480 1000

def zeroF : Frame := [0]

def fOne : Frame := [1]

def vadA : Frame → Bool := fun f => decide (f.headD 0 ≠ 0)

def vadT : Frame → Bool := fun _ => true

/-- Scenario A of the specification: 26 silent low-energy frames,
then 20 voiced high-energy frames, then 40 non-voiced low-energy
frames, default configuration. -/
def scenA : List Frame :=
  List.replicate 26 silentF ++ List.replicate 20 voicedF ++ List.replicate 40 silentF

/-- A stream of 66 frames that the VAD (`vadT`) labels voiced but
that carry zero energy: the capture completes and is discarded. -/
def scenT : List Frame := List.replicate 66 zeroF

/-- The 26 frames seeded from the pre-roll window in Scenario A: when
the start trigger fires the window holds 11 silent and 15 voiced
frames. -/
def preSeed : List Frame := List.replicate 11 silentF ++ List.replicate 15 voicedF

/-- Idle state of the Scenario A run: `m` silent frames then `j`
voiced frames in the pre-roll deque. -/
def idleA (m j : ℕ) : ListenState :=
  ListenState.mk false (List.replicate m silentF ++ List.replicate j voicedF) [] [] none

/-- Collecting state of the Scenario A run, triggered at frame index
`t`: `j` voiced then `k` silent frames consumed since the trigger. -/
def collA (t j k : ℕ) : ListenState :=
  ListenState.mk true []
    (List.replicate j voicedF ++ List.replicate k silentF)
    (preSeed ++ List.replicate j voicedF ++ List.replicate k silentF)
    (some t)

/-- The frame list handed to validation at the end trigger of
Scenario A: 66 collected frames followed by a second copy of the 40
post-roll frames — 106 frames in all. -/
def chunkA : List Frame :=
  (preSeed ++ List.replicate 5 voicedF ++ List.replicate 35 silentF) ++
    (List.replicate 5 voicedF ++ List.replicate 35 silentF)

/-- A collecting state used to exhibit the duration counterexample:
60 collected frames, a full post-roll deque, trigger recorded at
frame index 5. -/
def sC4 : ListenState :=
  ListenState.mk true [] (List.replicate 40 zeroF) (List.replicate 60 zeroF) (some 5)

/-- An idle state one frame short of a start trigger whose pre-roll
deque is full and starts with a distinguishable frame `[7]`. -/
def sC6 : ListenState :=
  ListenState.mk false ([(7 : ℤ)] :: List.replicate 25 fOne) [] [] none

/-!
Helper lemmas about the deque model, sums of squares, and the concrete
scenario frames.
-/

lemma pushEvict_of_lt {cap : ℕ} {buf : List Frame} (f : Frame) (h : buf.length < cap) :
    pushEvict cap buf f = buf ++ [f] := by
  simp only [pushEvict, List.length_append, List.length_singleton]
  rw [if_neg (by omega)]

lemma pushEvict_full {cap : ℕ} {buf : List Frame} (f : Frame) (hc : 1 ≤ cap)
    (h : buf.length = cap) :
    pushEvict cap buf f = buf.drop 1 ++ [f] := by
  simp only [pushEvict, List.length_append, List.length_singleton]
  rw [if_pos (by omega)]
  rw [show buf.length + 1 - cap = 1 from by omega]
  rw [List.drop_append_eq_append_drop]
  rw [show 1 - buf.length = 0 from by omega]
  rfl

lemma pushEvict_length (cap : ℕ) (buf : List Frame) (f : Frame) :
    (pushEvict cap buf f).length = min (buf.length + 1) cap := by
  simp only [pushEvict, List.length_append, List.length_singleton]
  split
  · simp only [List.length_drop, List.length_append, List.length_singleton]
    omega
  · simp only [List.length_append, List.length_singleton]
    omega

lemma pushEvict_getLastQ {cap : ℕ} (buf : List Frame) (f : Frame) (hc : 1 ≤ cap) :
    (pushEvict cap buf f).getLast? = some f := by
  simp only [pushEvict, List.length_append, List.length_singleton]
  split
  · rw [List.drop_append_eq_append_drop]
    rw [show buf.length + 1 - cap - buf.length = 0 from by omega]
    exact List.getLast?_concat _
  · exact List.getLast?_concat _

lemma sumSq_append (l₁ l₂ : List ℤ) : sumSq (l₁ ++ l₂) = sumSq l₁ + sumSq l₂ := by
  simp [sumSq]

lemma sumSq_replicate (n : ℕ) (x : ℤ) : sumSq (List.replicate n x) = n * (x * x) := by
  simp [sumSq, List.map_replicate, List.sum_replicate, nsmul_eq_mul]

lemma sumSq_flatten (L : List (List ℤ)) : sumSq L.flatten = (L.map sumSq).sum := by
  induction L with
  | nil => rfl
  | cons a L ih => simp [List.flatten_cons, sumSq_append, ih]

lemma sumSq_nonneg (l : List ℤ) : 0 ≤ sumSq l := by
  induction l with
  | nil => simp [sumSq]
  | cons a l ih =>
    have : sumSq (a :: l) = a * a + sumSq l := by simp [sumSq]
    rw [this]
    nlinarith [mul_self_nonneg a]

lemma vadA_silentF : vadA silentF = false := rfl

lemma vadA_voicedF : vadA voicedF = true := rfl

lemma sumSq_voicedF : sumSq voicedF = 480000000 := by
  rw [voicedF, sumSq_replicate]
  norm_num

lemma sumSq_silentF : sumSq silentF = 0 := by
  rw [silentF, sumSq_replicate]
  norm_num

lemma length_voicedF : voicedF.length = 480 := by
  rw [voicedF, List.length_replicate]

lemma length_silentF : silentF.length = 480 := by
  rw [silentF, List.length_replicate]

namespace audio_utils

/-!
The Scenario A run, proved by phases.  The pre-roll window fills with
26 silent frames, the start trigger fires on the 15th voiced frame
(vote 15 > 0.55 * 26), and the end trigger fires once the post-roll
window holds 5 voiced + 35 silent frames (vote 35 > 0.80 * 40).
-/

lemma pre_n_eq : pre_n = 26 := rfl

lemma post_n_eq : post_n = 40 := rfl

lemma frame_energy_ok_voicedF : frame_energy_ok voicedF = true := by
  unfold frame_energy_ok
  rw [length_voicedF, sumSq_voicedF]
  simp only [Bool.and_eq_true, decide_eq_true_eq]
  norm_num [FRAME_RMS_MIN]

lemma unvoiced_voicedF : (!(vadA voicedF && frame_energy_ok voicedF)) = false := by
  rw [vadA_voicedF, frame_energy_ok_voicedF]; rfl

lemma unvoiced_silentF : (!(vadA silentF && frame_energy_ok silentF)) = true := by
  rw [vadA_silentF]; rfl

lemma step_idle_silent (i m : ℕ) (hm : m < 26) :
    stepF vadA i (idleA m 0) silentF = StepRes.cont (idleA (m + 1) 0) := by
  have hpre : pushEvict pre_n (List.replicate m silentF ++ List.replicate 0 voicedF) silentF
      = List.replicate (m + 1) silentF := by
    rw [List.replicate_zero, List.append_nil,
      pushEvict_of_lt _ (by rw [pre_n_eq]; simp; omega), ← List.replicate_succ']
  simp only [stepF, idleA, hpre]
  rw [if_pos trivial, List.countP_replicate]
  simp [vadA_silentF, List.length_replicate, pre_n_eq]

lemma step_idle_voiced (i j : ℕ) (hj : j ≤ 13) :
    stepF vadA i (idleA (26 - j) j) voicedF = StepRes.cont (idleA (26 - (j + 1)) (j + 1)) := by
  have hlen : (List.replicate (26 - j) silentF ++ List.replicate j voicedF).length = 26 := by
    simp; omega
  have hdrop : (List.replicate (26 - j) silentF ++ List.replicate j voicedF).drop 1
      = List.replicate (26 - (j + 1)) silentF ++ List.replicate j voicedF := by
    rw [List.drop_append_eq_append_drop]
    rw [show (1 : ℕ) - (List.replicate (26 - j) silentF).length = 0 from by simp; omega]
    rw [List.drop_replicate]
    rw [show 26 - j - 1 = 26 - (j + 1) from by omega]
    rfl
  have hpre : pushEvict pre_n (List.replicate (26 - j) silentF ++ List.replicate j voicedF) voicedF
      = List.replicate (26 - (j + 1)) silentF ++ List.replicate (j + 1) voicedF := by
    rw [pushEvict_full _ (by norm_num [pre_n_eq]) (by rw [hlen, pre_n_eq]), hdrop,
      List.append_assoc, ← List.replicate_succ']
  simp only [stepF, idleA, hpre]
  rw [if_pos trivial]
  rw [List.countP_append, List.countP_replicate, List.countP_replicate]
  rw [vadA_silentF, vadA_voicedF]
  simp only [if_false, if_true, Bool.false_eq_true]
  have hlen2 : (List.replicate (26 - (j + 1)) silentF ++ List.replicate (j + 1) voicedF).length
      = 26 := by simp; omega
  rw [hlen2]
  rw [if_neg (by rw [pre_n_eq]; simp [TRIGGER_THRESHOLD_START_x100]; omega)]

lemma step_idle_trigger (i : ℕ) :
    stepF vadA i (idleA 12 14) voicedF
      = StepRes.cont (ListenState.mk true []
          [] (List.replicate 11 silentF ++ List.replicate 15 voicedF) (some i)) := by
  have hpre : pushEvict pre_n (List.replicate 12 silentF ++ List.replicate 14 voicedF) voicedF
      = List.replicate 11 silentF ++ List.replicate 15 voicedF := by
    rw [pushEvict_full _ (by norm_num [pre_n_eq]) (by simp [pre_n_eq])]
    rw [List.drop_append_eq_append_drop]
    rw [show (1 : ℕ) - (List.replicate 12 silentF).length = 0 from by simp]
    rw [List.drop_replicate, List.drop_zero]
    rw [List.append_assoc, ← List.replicate_succ']
  simp only [stepF, idleA, hpre]
  rw [if_pos trivial]
  rw [List.countP_append, List.countP_replicate, List.countP_replicate]
  rw [vadA_silentF, vadA_voicedF]
  simp only [if_false, if_true, Bool.false_eq_true]
  have hlen2 : (List.replicate 11 silentF ++ List.replicate 15 voicedF).length = 26 := by simp
  rw [hlen2]
  rw [if_pos (⟨by simp [pre_n_eq], by norm_num [TRIGGER_THRESHOLD_START_x100]⟩ : _ ∧ _)]
  simp only [List.nil_append]

lemma step_coll_voiced (t j : ℕ) (hj : j ≤ 4) :
    stepF vadA (t + (j + 1)) (collA t j 0) voicedF = StepRes.cont (collA t (j + 1) 0) := by
  have hpost : pushEvict post_n (List.replicate j voicedF ++ List.replicate 0 silentF) voicedF
      = List.replicate (j + 1) voicedF ++ List.replicate 0 silentF := by
    rw [List.replicate_zero, List.append_nil, List.append_nil,
      pushEvict_of_lt _ (by rw [post_n_eq]; simp; omega), ← List.replicate_succ']
  simp only [stepF, collA, hpost]
  rw [if_neg (by simp)]
  rw [List.countP_append, List.countP_replicate, List.countP_replicate,
    unvoiced_voicedF, unvoiced_silentF]
  simp only [if_false, if_true, Bool.false_eq_true, List.length_append,
    List.length_replicate, Option.getD_some, Nat.add_sub_cancel_left]
  rw [if_neg (by simp [post_n_eq, MAX_CHUNK_MS, FRAME_DURATION, TRIGGER_THRESHOLD_END_x100]; omega)]
  simp only [List.replicate_zero, List.append_nil, StepRes.cont.injEq, ListenState.mk.injEq]
  refine ⟨trivial, trivial, trivial, ?_, trivial⟩
  rw [List.append_assoc, ← List.replicate_succ']

lemma step_coll_silent (t k : ℕ) (hk : k ≤ 33) :
    stepF vadA (t + 5 + (k + 1)) (collA t 5 k) silentF = StepRes.cont (collA t 5 (k + 1)) := by
  have hpost : pushEvict post_n (List.replicate 5 voicedF ++ List.replicate k silentF) silentF
      = List.replicate 5 voicedF ++ List.replicate (k + 1) silentF := by
    rw [pushEvict_of_lt _ (by rw [post_n_eq]; simp; omega),
      List.append_assoc, ← List.replicate_succ']
  simp only [stepF, collA, hpost]
  rw [if_neg (by simp)]
  rw [List.countP_append, List.countP_replicate, List.countP_replicate,
    unvoiced_voicedF, unvoiced_silentF]
  simp only [if_false, if_true, Bool.false_eq_true, List.length_append,
    List.length_replicate, Option.getD_some]
  rw [if_neg (by simp [post_n_eq, MAX_CHUNK_MS, FRAME_DURATION, TRIGGER_THRESHOLD_END_x100]; omega)]
  simp only [StepRes.cont.injEq, ListenState.mk.injEq]
  refine ⟨trivial, trivial, trivial, ?_, trivial⟩
  rw [List.append_assoc, List.append_assoc, ← List.replicate_succ', ← List.append_assoc]

lemma step_coll_end (t : ℕ) :
    stepF vadA (t + 40) (collA t 5 34) silentF
      = StepRes.ended chunkA 1200
          (ListenState.mk true []
            (List.replicate 5 voicedF ++ List.replicate 35 silentF) chunkA (some t)) := by
  have hpost : pushEvict post_n (List.replicate 5 voicedF ++ List.replicate 34 silentF) silentF
      = List.replicate 5 voicedF ++ List.replicate 35 silentF := by
    rw [pushEvict_of_lt _ (by rw [post_n_eq]; simp),
      List.append_assoc, ← List.replicate_succ']
  have hvoiced : preSeed ++ List.replicate 5 voicedF ++ List.replicate 34 silentF ++ [silentF]
      = preSeed ++ List.replicate 5 voicedF ++ List.replicate 35 silentF := by
    rw [List.append_assoc, List.append_assoc, ← List.replicate_succ']
    simp [List.append_assoc]
  simp only [stepF, collA, hpost]
  rw [if_neg (by simp)]
  rw [List.countP_append, List.countP_replicate, List.countP_replicate,
    unvoiced_voicedF, unvoiced_silentF]
  simp only [if_false, if_true, Bool.false_eq_true, List.length_append,
    List.length_replicate, Option.getD_some, Nat.add_sub_cancel_left]
  rw [if_pos (Or.inl ⟨by simp [post_n_eq], by norm_num [TRIGGER_THRESHOLD_END_x100]⟩)]
  rw [hvoiced]
  rfl

end audio_utils

namespace audio_utils

lemma runLoop_cons (vad : Frame → Bool) (i : ℕ) (s : ListenState) (f : Frame) (fs : List Frame) :
    runLoop vad i s (f :: fs)
      = match stepF vad i s f with
        | StepRes.cont s2 => runLoop vad (i + 1) s2 fs
        | StepRes.ended frames tlen s2 =>
          if valid_chunk frames tlen then Sum.inl frames.flatten
          else runLoop vad (i + 1) (discardReset s2) fs := rfl

lemma runLoop_cons_cont {vad : Frame → Bool} {i : ℕ} {s s2 : ListenState} {f : Frame}
    (fs : List Frame) (h : stepF vad i s f = StepRes.cont s2) :
    runLoop vad i s (f :: fs) = runLoop vad (i + 1) s2 fs := by
  rw [runLoop_cons, h]

lemma runLoop_cons_ended {vad : Frame → Bool} {i : ℕ} {s s2 : ListenState} {f : Frame}
    {fr : List Frame} {tl : ℕ} (fs : List Frame)
    (h : stepF vad i s f = StepRes.ended fr tl s2) :
    runLoop vad i s (f :: fs)
      = if valid_chunk fr tl then Sum.inl fr.flatten
        else runLoop vad (i + 1) (discardReset s2) fs := by
  rw [runLoop_cons, h]

lemma phase1 : ∀ (n m i : ℕ) (rest : List Frame), m + n ≤ 26 →
    runLoop vadA i (idleA m 0) (List.replicate n silentF ++ rest)
      = runLoop vadA (i + n) (idleA (m + n) 0) rest := by
  intro n
  induction n with
  | zero => intro m i rest _; simp
  | succ n ih =>
    intro m i rest h
    rw [List.replicate_succ, List.cons_append,
      runLoop_cons_cont _ (step_idle_silent i m (by omega))]
    rw [ih (m + 1) (i + 1) rest (by omega)]
    rw [show i + 1 + n = i + (n + 1) from by omega,
      show m + 1 + n = m + (n + 1) from by omega]

lemma phase2 : ∀ (k j i : ℕ) (rest : List Frame), j + k ≤ 14 →
    runLoop vadA i (idleA (26 - j) j) (List.replicate k voicedF ++ rest)
      = runLoop vadA (i + k) (idleA (26 - (j + k)) (j + k)) rest := by
  intro k
  induction k with
  | zero => intro j i rest _; simp
  | succ k ih =>
    intro j i rest h
    rw [List.replicate_succ, List.cons_append,
      runLoop_cons_cont _ (step_idle_voiced i j (by omega))]
    rw [ih (j + 1) (i + 1) rest (by omega)]
    rw [show i + 1 + k = i + (k + 1) from by omega,
      show j + 1 + k = j + (k + 1) from by omega]

lemma phase4 : ∀ (k j t : ℕ) (rest : List Frame), j + k ≤ 5 →
    runLoop vadA (t + (j + 1)) (collA t j 0) (List.replicate k voicedF ++ rest)
      = runLoop vadA (t + (j + k + 1)) (collA t (j + k) 0) rest := by
  intro k
  induction k with
  | zero => intro j t rest _; simp
  | succ k ih =>
    intro j t rest h
    rw [List.replicate_succ, List.cons_append,
      runLoop_cons_cont _ (step_coll_voiced t j (by omega))]
    have h2 := ih (j + 1) t rest (by omega)
    rw [show t + (j + 1) + 1 = t + (j + 1 + 1) from by omega, h2]
    rw [show j + 1 + k = j + (k + 1) from by omega]

lemma phase5 : ∀ (m k t : ℕ) (rest : List Frame), k + m ≤ 34 →
    runLoop vadA (t + 5 + (k + 1)) (collA t 5 k) (List.replicate m silentF ++ rest)
      = runLoop vadA (t + 5 + (k + m + 1)) (collA t 5 (k + m)) rest := by
  intro m
  induction m with
  | zero => intro k t rest _; simp
  | succ m ih =>
    intro k t rest h
    rw [List.replicate_succ, List.cons_append,
      runLoop_cons_cont _ (step_coll_silent t k (by omega))]
    have h2 := ih (k + 1) t rest (by omega)
    rw [show t + 5 + (k + 1) + 1 = t + 5 + (k + 1 + 1) from by omega, h2]
    rw [show k + 1 + m = k + (m + 1) from by omega]

lemma length_flatten_chunkA : chunkA.flatten.length = 50880 := by
  rw [List.length_flatten, chunkA, preSeed]
  simp only [List.map_append, List.map_replicate, List.sum_append, List.sum_replicate,
    length_silentF, length_voicedF, smul_eq_mul]
  norm_num

lemma sumSq_chunkA : sumSq chunkA.flatten = 12000000000 := by
  rw [sumSq_flatten, chunkA, preSeed]
  simp only [List.map_append, List.map_replicate, List.sum_append, List.sum_replicate,
    sumSq_silentF, sumSq_voicedF, smul_eq_mul]
  norm_num

lemma valid_chunk_chunkA : valid_chunk chunkA 1200 = true := by
  unfold valid_chunk chunk_energy_ok
  rw [length_flatten_chunkA, sumSq_chunkA]
  simp only [Bool.and_eq_true, decide_eq_true_eq]
  norm_num [MIN_CHUNK_MS, CHUNK_RMS_MIN]

/-- The Scenario A run of `audio_utils.listen`: the call returns while
processing the 35th of the 40 trailing silent frames, emitting the
flattened `chunkA` (106 frames). -/
lemma runLoop_scenA : runLoop vadA 0 initState scenA = Sum.inl chunkA.flatten := by
  have hscen : scenA = List.replicate 26 silentF ++ (List.replicate 14 voicedF ++
      ([voicedF] ++ (List.replicate 5 voicedF ++ (List.replicate 34 silentF ++
      ([silentF] ++ List.replicate 5 silentF))))) := by
    rw [scenA, show (20:ℕ) = 14 + (1 + 5) from rfl, List.replicate_add, List.replicate_add,
      show (40:ℕ) = 34 + (1 + 5) from rfl, List.replicate_add, List.replicate_add]
    simp [List.append_assoc, List.replicate_one]
  rw [hscen]
  rw [show initState = idleA 0 0 from rfl]
  rw [phase1 26 0 0 _ (by norm_num)]
  rw [show (0 + 26 : ℕ) = 26 from rfl]
  rw [show idleA (0 + 26) 0 = idleA (26 - 0) 0 from rfl]
  rw [phase2 14 0 26 _ (by norm_num)]
  rw [show (26 + 14 : ℕ) = 40 from rfl, show (0 + 14 : ℕ) = 14 from rfl]
  rw [show idleA (26 - 14) 14 = idleA 12 14 from rfl]
  rw [List.cons_append, runLoop_cons_cont _ (step_idle_trigger 40)]
  rw [show ListenState.mk true ([] : List Frame) ([] : List Frame)
      (List.replicate 11 silentF ++ List.replicate 15 voicedF) (some 40) = collA 40 0 0 from by
    simp [collA, preSeed]]
  rw [show (40 + 1 : ℕ) = 40 + (0 + 1) from rfl, List.nil_append]
  rw [phase4 5 0 40 _ (by norm_num)]
  rw [show (40 + (0 + 5 + 1) : ℕ) = 40 + 5 + (0 + 1) from rfl,
    show (0 + 5 : ℕ) = 5 from rfl]
  rw [phase5 34 0 40 _ (by norm_num)]
  rw [show (40 + 5 + (0 + 34 + 1) : ℕ) = 40 + 40 from rfl,
    show (0 + 34 : ℕ) = 34 from rfl]
  rw [List.cons_append, List.nil_append, runLoop_cons_ended _ (step_coll_end 40)]
  rw [valid_chunk_chunkA]
  simp

end audio_utils

/-!
Decode totality lemmas for the byte-level `rms16` model.
-/

lemma decodeInt16_even : ∀ b : List ℕ, b.length % 2 = 0 → ∃ s, decodeInt16 b = some s
  | [], _ => ⟨[], rfl⟩
  | [x], h => by simp at h
  | lo :: hi :: rest, h => by
    have h2 : rest.length % 2 = 0 := by
      simp only [List.length_cons] at h
      omega
    obtain ⟨s, hs⟩ := decodeInt16_even rest h2
    exact ⟨int16OfPair lo hi :: s, by simp [decodeInt16, hs]⟩

lemma decodeInt16_odd : ∀ b : List ℕ, b.length % 2 = 1 → decodeInt16 b = none
  | [], h => by simp at h
  | [x], _ => rfl
  | lo :: hi :: rest, h => by
    have h2 : rest.length % 2 = 1 := by
      simp only [List.length_cons] at h
      omega
    have h3 := decodeInt16_odd rest h2
    simp [decodeInt16, h3]

namespace audio_utils

/-- C7: the pre-roll and post-roll window capacities are
`max(1, floor(pre_buffer_ms / frame_duration_ms))` and
`max(1, floor(post_buffer_ms / frame_duration_ms))`, hence always at
least 1; they are constants of the embedding (computed once before
the loop in the source, never reassigned), and for the default
configuration they equal 26 and 40. -/
theorem claim_C7 :
    pre_n = max 1 (PRE_BUFFER_MS / FRAME_DURATION) ∧
    post_n = max 1 (POST_BUFFER_MS / FRAME_DURATION) ∧
    1 ≤ pre_n ∧ 1 ≤ post_n ∧
    pre_n = 26 ∧ post_n = 40 ∧
    (∀ ms fd : ℕ, 1 ≤ max 1 (ms / fd)) :=
  ⟨rfl, rfl, by norm_num [pre_n_eq], by norm_num [post_n_eq], pre_n_eq, post_n_eq,
    fun ms fd => le_max_left 1 _⟩

/-- C8 counterexample: `rms16` is not total on byte strings.  On the
1-byte input `[0]` (a malformed frame, length not a multiple of the
2-byte sample size) the model yields `none` — `np.frombuffer` raises
`ValueError` — instead of returning energy `0.0` as the claim
states. -/
theorem claim_C8_counterexample :
    rms16_sq [0] = none ∧ ([0] : List ℕ).length % 2 = 1 := by
  constructor
  · rfl
  · rfl

/-- C8 amended: `rms16` is total on every byte string of even length
(in particular on every well-formed frame), and an empty byte string
yields energy `0.0`; but on a nonempty byte string of odd length
(malformed frame) it raises `ValueError` (modelled `none`) instead of
returning `0.0`. -/
theorem claim_C8_amended :
    ∀ b : List ℕ,
      (b.length % 2 = 0 → ∃ q, rms16_sq b = some q) ∧
      (b = [] → rms16_sq b = some 0) ∧
      (b ≠ [] → b.length % 2 = 1 → rms16_sq b = none) := by
  intro b
  refine ⟨?_, ?_, ?_⟩
  · intro h
    by_cases hb : b.length = 0
    · exact ⟨0, by simp [rms16_sq, hb]⟩
    · obtain ⟨s, hs⟩ := decodeInt16_even b h
      by_cases hsl : s.length = 0
      · exact ⟨0, by rw [rms16_sq, if_neg hb, hs]; simp [hsl]⟩
      · exact ⟨rmsSq s, by rw [rms16_sq, if_neg hb, hs]; simp [hsl]⟩
  · intro h
    simp [rms16_sq, h]
  · intro hne h
    have hb : ¬ b.length = 0 := by
      intro h0
      exact hne (List.length_eq_zero.mp h0)
    rw [rms16_sq, if_neg hb, decodeInt16_odd b h]

/-- C8 witness: the amended totality claim evaluated at the concrete
inputs `[1, 2]` (well-formed), `[]` (empty), and `[0]` (malformed). -/
theorem claim_C8_amended_witness :
    (∃ q, rms16_sq [1, 2] = some q) ∧
    rms16_sq [] = some 0 ∧
    rms16_sq [0] = none :=
  ⟨(claim_C8_amended [1, 2]).1 (by norm_num),
    (claim_C8_amended []).2.1 rfl,
    (claim_C8_amended [0]).2.2 (by simp) (by norm_num)⟩

end audio_utils

namespace audio_utils

/-!
Bridges between the claim-side rational vote fractions / durations in
seconds and the exact integer comparisons of the embedding.
-/

lemma start_vote_iff (v n : ℕ) (hn : 0 < n) :
    ((11 : ℚ) / 20 < (v : ℚ) / (n : ℚ)) ↔
      TRIGGER_THRESHOLD_START_x100 * n < 100 * v := by
  rw [div_lt_div_iff (by norm_num) (by exact_mod_cast hn)]
  show ((11 : ℚ) * n < v * 20) ↔ 55 * n < 100 * v
  constructor
  · intro h
    have h2 : 11 * n < v * 20 := by exact_mod_cast h
    omega
  · intro h
    have h2 : 11 * n < v * 20 := by omega
    exact_mod_cast h2

lemma end_vote_iff (v n : ℕ) (hn : 0 < n) :
    ((4 : ℚ) / 5 < (v : ℚ) / (n : ℚ)) ↔
      TRIGGER_THRESHOLD_END_x100 * n < 100 * v := by
  rw [div_lt_div_iff (by norm_num) (by exact_mod_cast hn)]
  show ((4 : ℚ) * n < v * 5) ↔ 80 * n < 100 * v
  constructor
  · intro h
    have h2 : 4 * n < v * 5 := by exact_mod_cast h
    omega
  · intro h
    have h2 : 4 * n < v * 5 := by omega
    exact_mod_cast h2

lemma max_sec_iff (m : ℕ) :
    ((5 : ℚ) ≤ (m : ℚ) / 1000) ↔ MAX_CHUNK_MS ≤ m := by
  rw [le_div_iff (by norm_num)]
  show ((5 : ℚ) * 1000 ≤ (m : ℚ)) ↔ 5000 ≤ m
  constructor
  · intro h
    exact_mod_cast (by linarith : (5000 : ℚ) ≤ (m : ℚ))
  · intro h
    have h2 : (5000 : ℚ) ≤ (m : ℚ) := by exact_mod_cast h
    linarith

lemma min_sec_iff (m : ℕ) :
    ((1 : ℚ) / 2 ≤ (m : ℚ) / 1000) ↔ MIN_CHUNK_MS ≤ m := by
  rw [div_le_div_iff (by norm_num) (by norm_num)]
  show ((1 : ℚ) * 1000 ≤ (m : ℚ) * 2) ↔ 500 ≤ m
  constructor
  · intro h
    have h2 : (1000 : ℚ) ≤ (m : ℚ) * 2 := by linarith
    have h3 : 1000 ≤ m * 2 := by exact_mod_cast h2
    omega
  · intro h
    have h2 : 1000 ≤ m * 2 := by omega
    have h3 : (1000 : ℚ) ≤ (m : ℚ) * 2 := by exact_mod_cast h2
    linarith

/-- The idle branch never returns (always continues), and it triggers
exactly when the pushed window is full with a strict vote majority. -/
lemma step_idle (vad : Frame → Bool) (i : ℕ) (s : ListenState) (f : Frame)
    (htrig : s.triggered = false) :
    stepF vad i s f =
      (if (pushEvict pre_n s.pre_buffer_frames f).length = pre_n ∧
          TRIGGER_THRESHOLD_START_x100 * (pushEvict pre_n s.pre_buffer_frames f).length <
            100 * (pushEvict pre_n s.pre_buffer_frames f).countP vad
        then StepRes.cont (ListenState.mk true [] s.post_buffer_frames
          (s.voiced_frames ++ pushEvict pre_n s.pre_buffer_frames f) (some i))
        else StepRes.cont (ListenState.mk false (pushEvict pre_n s.pre_buffer_frames f)
          s.post_buffer_frames s.voiced_frames s.chunk_start_time)) := by
  simp only [stepF, htrig]
  rw [if_pos trivial]

/-- C2: while idle, each frame is pushed into the pre-roll window and
the detector transitions to collecting exactly when the window is
completely full and the voiced vote fraction strictly exceeds
`start_threshold = 0.55`; moreover a run that is fed fewer than
`pre_n` frames in total never triggers, whatever the frames hold. -/
theorem claim_C2 :
    (∀ (vad : Frame → Bool) (i : ℕ) (s : ListenState) (f : Frame),
      s.triggered = false →
      ∃ s2, stepF vad i s f = StepRes.cont s2 ∧
        (s2.triggered = true ↔
          ((pushEvict pre_n s.pre_buffer_frames f).length = pre_n ∧
            (11 : ℚ) / 20 <
              ((pushEvict pre_n s.pre_buffer_frames f).countP vad : ℚ) /
                ((pushEvict pre_n s.pre_buffer_frames f).length : ℚ))) ∧
        (s2.triggered = false →
          s2.pre_buffer_frames = pushEvict pre_n s.pre_buffer_frames f) ∧
        (s2.triggered = true → s2.pre_buffer_frames = [])) ∧
    (∀ (vad : Frame → Bool) (fs : List Frame), fs.length < pre_n →
      ∃ s2, runLoop vad 0 initState fs = Sum.inr s2 ∧ s2.triggered = false) := by
  constructor
  · intro vad i s f htrig
    rw [step_idle vad i s f htrig]
    split
    · rename_i hc
      refine ⟨_, rfl, ?_, ?_, ?_⟩
      · simp only [true_iff]
        refine ⟨hc.1, ?_⟩
        have hn : 0 < (pushEvict pre_n s.pre_buffer_frames f).length := by
          rw [hc.1, pre_n_eq]; norm_num
        exact (start_vote_iff _ _ hn).mpr hc.2
      · intro h
        simp at h
      · intro _
        rfl
    · rename_i hc
      refine ⟨_, rfl, ?_, ?_, ?_⟩
      · simp only [Bool.false_eq_true, false_iff]
        intro ⟨h1, h2⟩
        have hn : 0 < (pushEvict pre_n s.pre_buffer_frames f).length := by
          rw [h1, pre_n_eq]; norm_num
        exact hc ⟨h1, (start_vote_iff _ _ hn).mp h2⟩
      · intro _
        rfl
      · intro h
        simp at h
  · intro vad fs
    suffices h : ∀ (fs : List Frame) (i : ℕ) (s : ListenState), s.triggered = false →
        s.pre_buffer_frames.length + fs.length < pre_n →
        ∃ s2, runLoop vad i s fs = Sum.inr s2 ∧ s2.triggered = false ∧
          s2.pre_buffer_frames.length = s.pre_buffer_frames.length + fs.length by
      intro hlen
      obtain ⟨s2, h1, h2, _⟩ := h fs 0 initState rfl (by simpa [initState] using hlen)
      exact ⟨s2, h1, h2⟩
    intro fs
    induction fs with
    | nil =>
      intro i s htrig _
      exact ⟨s, rfl, htrig, by simp⟩
    | cons f fs ih =>
      intro i s htrig hlen
      have hNot : ¬ ((pushEvict pre_n s.pre_buffer_frames f).length = pre_n ∧
          TRIGGER_THRESHOLD_START_x100 * (pushEvict pre_n s.pre_buffer_frames f).length <
            100 * (pushEvict pre_n s.pre_buffer_frames f).countP vad) := by
        intro ⟨h1, _⟩
        rw [pushEvict_length] at h1
        simp only [List.length_cons] at hlen
        omega
      have hstep : stepF vad i s f = StepRes.cont
          (ListenState.mk false (pushEvict pre_n s.pre_buffer_frames f)
            s.post_buffer_frames s.voiced_frames s.chunk_start_time) := by
        rw [step_idle vad i s f htrig, if_neg hNot]
      rw [runLoop_cons_cont _ hstep]
      have hw : (pushEvict pre_n s.pre_buffer_frames f).length
          = s.pre_buffer_frames.length + 1 := by
        rw [pushEvict_length]
        simp only [List.length_cons] at hlen
        omega
      obtain ⟨s2, h1, h2, h3⟩ := ih (i + 1)
        (ListenState.mk false (pushEvict pre_n s.pre_buffer_frames f)
          s.post_buffer_frames s.voiced_frames s.chunk_start_time) rfl
        (by simp only [List.length_cons] at hlen; simp [hw]; omega)
      refine ⟨s2, h1, h2, ?_⟩
      rw [h3]
      simp only [hw, List.length_cons]
      omega

end audio_utils

namespace audio_utils

/-- The collecting branch in closed form: append the frame to storage
and return the end trigger exactly when the pushed post-roll window is
full with a strict unvoiced majority, or the elapsed time reached the
hard cap. -/
lemma step_coll (vad : Frame → Bool) (i : ℕ) (s : ListenState) (f : Frame)
    (htrig : s.triggered = true) :
    stepF vad i s f =
      (if ((pushEvict post_n s.post_buffer_frames f).length = post_n ∧
            TRIGGER_THRESHOLD_END_x100 * (pushEvict post_n s.post_buffer_frames f).length <
              100 * (pushEvict post_n s.post_buffer_frames f).countP
                (fun g => !(vad g && frame_energy_ok g))) ∨
          MAX_CHUNK_MS ≤ (i - s.chunk_start_time.getD 0) * FRAME_DURATION
        then StepRes.ended (s.voiced_frames ++ [f] ++ pushEvict post_n s.post_buffer_frames f)
          ((i - s.chunk_start_time.getD 0) * FRAME_DURATION)
          (ListenState.mk true s.pre_buffer_frames (pushEvict post_n s.post_buffer_frames f)
            (s.voiced_frames ++ [f] ++ pushEvict post_n s.post_buffer_frames f)
            s.chunk_start_time)
        else StepRes.cont (ListenState.mk true s.pre_buffer_frames
          (pushEvict post_n s.post_buffer_frames f) (s.voiced_frames ++ [f])
          s.chunk_start_time)) := by
  simp only [stepF, htrig]
  rw [if_neg (by simp)]

/-- C3: while collecting, the end-of-utterance trigger fires exactly
when the post-roll window (after the push) is full and the fraction of
its frames that are not (voiced and of per-frame energy at least
`frame_energy_min`) strictly exceeds `end_threshold = 0.80`, or the
elapsed time since the start trigger is at least
`max_chunk_duration = 5 s` — the latter regardless of any votes. -/
theorem claim_C3 :
    ∀ (vad : Frame → Bool) (i : ℕ) (s : ListenState) (f : Frame) (t : ℕ),
      s.triggered = true → s.chunk_start_time = some t →
      ((∃ fr tl s2, stepF vad i s f = StepRes.ended fr tl s2) ↔
        (((pushEvict post_n s.post_buffer_frames f).length = post_n ∧
            (4 : ℚ) / 5 <
              (((pushEvict post_n s.post_buffer_frames f).countP
                  (fun g => !(vad g && frame_energy_ok g)) : ℚ) /
                ((pushEvict post_n s.post_buffer_frames f).length : ℚ))) ∨
          (5 : ℚ) ≤ (((i - t) * FRAME_DURATION : ℕ) : ℚ) / 1000)) := by
  intro vad i s f t htrig hstart
  rw [step_coll vad i s f htrig, hstart]
  simp only [Option.getD_some]
  split
  · rename_i hc
    constructor
    · intro _
      rcases hc with ⟨h1, h2⟩ | h2
      · refine Or.inl ⟨h1, ?_⟩
        have hn : 0 < (pushEvict post_n s.post_buffer_frames f).length := by
          rw [h1, post_n_eq]; norm_num
        exact (end_vote_iff _ _ hn).mpr h2
      · exact Or.inr ((max_sec_iff _).mpr h2)
    · intro _
      exact ⟨_, _, _, rfl⟩
  · rename_i hc
    constructor
    · intro ⟨fr, tl, s2, heq⟩
      exact absurd heq (by simp)
    · intro h
      exfalso
      apply hc
      rcases h with ⟨h1, h2⟩ | h2
      · refine Or.inl ⟨h1, ?_⟩
        have hn : 0 < (pushEvict post_n s.post_buffer_frames f).length := by
          rw [h1, post_n_eq]; norm_num
        exact (end_vote_iff _ _ hn).mp h2
      · exact Or.inr ((max_sec_iff _).mp h2)

/-- C3 witness: at a freshly triggered state with an empty post-roll
window and a zero-energy frame arriving immediately, the claimed
equivalence instantiates and shows that no end trigger fires. -/
theorem claim_C3_witness :
    ¬ ∃ fr tl s2,
      stepF vadT 0 (ListenState.mk true [] [] [] (some 0)) zeroF
        = StepRes.ended fr tl s2 := by
  intro hex
  have h := (claim_C3 vadT 0 (ListenState.mk true [] [] [] (some 0)) zeroF 0 rfl rfl).mp hex
  rcases h with ⟨h1, _⟩ | h2
  · rw [pushEvict_length, post_n_eq] at h1
    simp at h1
  · norm_num at h2

end audio_utils

lemma lastN_zero (l : List α) : lastN 0 l = [] := by
  simp [lastN]

lemma lastN_length (n : ℕ) (l : List α) : (lastN n l).length = min n l.length := by
  simp only [lastN, List.length_drop]
  omega

lemma lastN_append_one (n : ℕ) (l : List α) (a : α) :
    lastN (n + 1) (l ++ [a]) = lastN n l ++ [a] := by
  simp only [lastN, List.length_append, List.length_singleton]
  rw [show l.length + 1 - (n + 1) = l.length - n from by omega]
  rw [List.drop_append_eq_append_drop]
  rw [show l.length - n - l.length = 0 from by omega]
  rfl

lemma drop_one_lastN (n : ℕ) (l : List α) (h : n + 1 ≤ l.length) :
    (lastN (n + 1) l).drop 1 = lastN n l := by
  simp only [lastN]
  rw [List.drop_drop]
  congr 1
  omega

lemma lastN_suffix (n : ℕ) (l : List α) : lastN n l <:+ l :=
  List.drop_suffix _ _

namespace audio_utils

/-- C2 witness: the idle-branch characterisation applied to the
initial state with a single zero frame (the window is far from full,
so no trigger), and the no-trigger boundary applied to a one-frame
stream. -/
theorem claim_C2_witness :
    (∃ s2, stepF vadT 0 initState zeroF = StepRes.cont s2 ∧ s2.triggered = false) ∧
    (∃ s2, runLoop vadT 0 initState [zeroF] = Sum.inr s2 ∧ s2.triggered = false) := by
  constructor
  · obtain ⟨s2, h1, h2, _, _⟩ := claim_C2.1 vadT 0 initState zeroF rfl
    refine ⟨s2, h1, ?_⟩
    by_cases ht : s2.triggered = true
    · obtain ⟨hl, _⟩ := h2.mp ht
      rw [pushEvict_length, pre_n_eq] at hl
      simp [initState] at hl
    · simpa using ht
  · exact claim_C2.2 vadT [zeroF] (by simp [pre_n_eq])

/-- C9: while collecting, every frame is appended to both the
collected storage and the post-roll window, so the post-roll window
always holds exactly the most recent `min post_n k` frames of
collected storage (`k` = frames consumed since the start trigger) and
is in particular a suffix of it; the second part is the base case:
the state entered at a start trigger satisfies the invariant with
`k = 0` (the post-roll deque is empty whenever the detector is
idle). -/
theorem claim_C9 :
    (∀ (vad : Frame → Bool) (i : ℕ) (s : ListenState) (f : Frame) (s2 : ListenState) (k : ℕ),
      s.triggered = true →
      s.post_buffer_frames = lastN (min post_n k) s.voiced_frames →
      min post_n k ≤ s.voiced_frames.length →
      stepF vad i s f = StepRes.cont s2 →
      (s2.triggered = true ∧
        s2.post_buffer_frames = lastN (min post_n (k + 1)) s2.voiced_frames ∧
        min post_n (k + 1) ≤ s2.voiced_frames.length ∧
        s2.post_buffer_frames <:+ s2.voiced_frames)) ∧
    (∀ (vad : Frame → Bool) (i : ℕ) (s : ListenState) (f : Frame) (s2 : ListenState),
      s.triggered = false → s.post_buffer_frames = [] →
      stepF vad i s f = StepRes.cont s2 → s2.triggered = true →
      s2.post_buffer_frames = lastN (min post_n 0) s2.voiced_frames) := by
  constructor
  · intro vad i s f s2 k htrig hpost hklen hstep
    have hplen : s.post_buffer_frames.length = min post_n k := by
      rw [hpost, lastN_length]
      omega
    have hpn1 : 1 ≤ post_n := by rw [post_n_eq]; norm_num
    rw [step_coll vad i s f htrig] at hstep
    split at hstep
    · exact absurd hstep (by simp)
    · cases hstep
      have hw : pushEvict post_n s.post_buffer_frames f
          = lastN (min post_n (k + 1)) (s.voiced_frames ++ [f]) := by
        by_cases hk : k < post_n
        · rw [show min post_n (k + 1) = k + 1 from by omega]
          rw [lastN_append_one k s.voiced_frames f]
          rw [pushEvict_of_lt f (by omega), hpost,
            show min post_n k = k from by omega]
        · rw [show min post_n (k + 1) = post_n from by omega]
          rw [pushEvict_full f hpn1 (by omega)]
          rw [hpost, show min post_n k = post_n from by omega]
          obtain ⟨m, hm⟩ : ∃ m, post_n = m + 1 := ⟨post_n - 1, by omega⟩
          rw [hm, lastN_append_one m s.voiced_frames f,
            drop_one_lastN m s.voiced_frames (by omega)]
      refine ⟨rfl, hw, ?_, ?_⟩
      · simp only [List.length_append, List.length_singleton]
        omega
      · rw [hw]
        exact lastN_suffix _ _
  · intro vad i s f s2 htrig hpost hstep htrig2
    rw [step_idle vad i s f htrig] at hstep
    rw [min_zero, lastN_zero]
    split at hstep
    · cases hstep
      exact hpost
    · cases hstep
      simp at htrig2

end audio_utils

namespace audio_utils

/-- C9 witness: the invariant preservation applied to a freshly
triggered state (`k = 0`, one collected frame) stepped with one more
zero frame. -/
theorem claim_C9_witness :
    (ListenState.mk true ([] : List Frame) [zeroF] [zeroF, zeroF]
        (some 0)).triggered = true ∧
    ([zeroF] : List Frame) = lastN (min post_n (0 + 1)) [zeroF, zeroF] ∧
    min post_n (0 + 1) ≤ ([zeroF, zeroF] : List Frame).length ∧
    ([zeroF] : List Frame) <:+ [zeroF, zeroF] :=
  claim_C9.1 vadT 1 (ListenState.mk true [] [] [zeroF] (some 0)) zeroF
    (ListenState.mk true [] [zeroF] [zeroF, zeroF] (some 0)) 0 rfl (by decide)
    (by decide) (by decide)

/-- C6 counterexample: at a start trigger the collected storage is
seeded with the post-push window only — the triggering frame is its
last element and the oldest frame of the pre-push window has been
evicted.  Concretely, with a full 26-frame window `[7] :: 25 × [1]`
and triggering frame `[1]`, the seeded storage has 26 frames; the
claim's reading "entire window contents, then the triggering frame
appended" would give 27 frames (under either reading of "window":
post-push, or pre-push which retains `[7]`). -/
theorem claim_C6_counterexample :
    (resState (stepF vadA 99 sC6 fOne)).triggered = true ∧
    (resState (stepF vadA 99 sC6 fOne)).voiced_frames = List.replicate 26 fOne ∧
    (resState (stepF vadA 99 sC6 fOne)).voiced_frames ≠
      pushEvict pre_n sC6.pre_buffer_frames fOne ++ [fOne] ∧
    (resState (stepF vadA 99 sC6 fOne)).voiced_frames ≠
      sC6.pre_buffer_frames ++ [fOne] := by
  refine ⟨?_, ?_, ?_, ?_⟩ <;> decide

/-- C6 amended: a start trigger seeds the (previously empty) collected
storage with the post-push pre-roll window contents in temporal order
— the triggering frame is the window's last element, the oldest
pre-push entry having been evicted — records the start time, moves to
collecting, and clears the pre-roll window; no second copy of the
triggering frame is appended. -/
theorem claim_C6_amended :
    ∀ (vad : Frame → Bool) (i : ℕ) (s : ListenState) (f : Frame),
      s.triggered = false →
      s.voiced_frames = [] →
      ((pushEvict pre_n s.pre_buffer_frames f).length = pre_n ∧
        TRIGGER_THRESHOLD_START_x100 * (pushEvict pre_n s.pre_buffer_frames f).length <
          100 * (pushEvict pre_n s.pre_buffer_frames f).countP vad) →
      stepF vad i s f = StepRes.cont
          (ListenState.mk true [] s.post_buffer_frames
            (pushEvict pre_n s.pre_buffer_frames f) (some i)) ∧
        (pushEvict pre_n s.pre_buffer_frames f).getLast? = some f := by
  intro vad i s f htrig hempty hc
  constructor
  · rw [step_idle vad i s f htrig, if_pos hc, hempty, List.nil_append]
  · exact pushEvict_getLastQ _ _ (by rw [pre_n_eq]; norm_num)

/-- C6 witness: the amended trigger behaviour at the concrete full
window `[7] :: 25 × [1]` with triggering frame `[1]`. -/
theorem claim_C6_amended_witness :
    stepF vadA 99 sC6 fOne = StepRes.cont
        (ListenState.mk true [] sC6.post_buffer_frames
          (pushEvict pre_n sC6.pre_buffer_frames fOne) (some 99)) ∧
      (pushEvict pre_n sC6.pre_buffer_frames fOne).getLast? = some fOne :=
  claim_C6_amended vadA 99 sC6 fOne rfl rfl (by decide)

end audio_utils

namespace audio_utils

/-- The Boolean chunk-energy gate agrees with the claim-side condition
`RMS(buffer) ≥ CHUNK_RMS_MIN`, stated squared over `rmsSq`. -/
lemma chunk_energy_iff (l : List ℤ) :
    chunk_energy_ok l = true ↔ ((CHUNK_RMS_MIN : ℚ)) ^ 2 ≤ rmsSq l := by
  unfold chunk_energy_ok rmsSq
  by_cases h : l.length = 0
  · rw [if_pos h]
    simp only [h, Bool.and_eq_true, decide_eq_true_eq]
    constructor
    · intro ⟨h1, _⟩
      exact absurd rfl h1
    · intro h2
      exfalso
      rw [CHUNK_RMS_MIN] at h2
      norm_num at h2
  · rw [if_neg h]
    have hl : (0 : ℚ) < (l.length : ℚ) := by
      exact_mod_cast Nat.pos_of_ne_zero h
    rw [le_div_iff hl]
    simp only [Bool.and_eq_true, decide_eq_true_eq]
    constructor
    · intro ⟨_, h2⟩
      exact_mod_cast h2
    · intro h2
      exact ⟨h, by exact_mod_cast h2⟩

/-- C4 counterexample: an end trigger whose validated duration (the
quantity compared against `min_chunk_duration`) is 1.2 s while the
frame count times the frame duration is 101 × 30 ms = 3.03 s: the
validation duration is the elapsed time since the start trigger, not
`frame_count × frame_duration`. -/
theorem claim_C4_counterexample :
    isEnded (stepF vadT 45 sC4 zeroF) = true ∧
    resTlen (stepF vadT 45 sC4 zeroF) = 1200 ∧
    (resFrames (stepF vadT 45 sC4 zeroF)).length = 101 ∧
    (((resFrames (stepF vadT 45 sC4 zeroF)).length * FRAME_DURATION : ℕ) : ℚ) / 1000
      ≠ ((resTlen (stepF vadT 45 sC4 zeroF) : ℕ) : ℚ) / 1000 := by
  refine ⟨by decide, by decide, by decide, ?_⟩
  rw [show ((resFrames (stepF vadT 45 sC4 zeroF)).length * FRAME_DURATION : ℕ) = 3030
    from by decide]
  rw [show (resTlen (stepF vadT 45 sC4 zeroF) : ℕ) = 1200 from by decide]
  norm_num

/-- C4 amended: on every end trigger the duration validated against
`min_chunk_duration` is the elapsed time since the start trigger
(`(i - t) × frame_duration` under real-time pacing), which differs
from `frame_count × frame_duration` (the collected frames include the
pre-roll seed and the duplicated post-roll extension, which predate or
double-count that span); the aggregate energy validated against
`chunk_energy_min` is, as claimed, the RMS of the concatenated
buffer. -/
theorem claim_C4_amended :
    ∀ (vad : Frame → Bool) (i : ℕ) (s : ListenState) (f : Frame) (fr : List Frame)
      (tl : ℕ) (s2 : ListenState) (t : ℕ),
      stepF vad i s f = StepRes.ended fr tl s2 →
      s.chunk_start_time = some t →
      tl = (i - t) * FRAME_DURATION ∧
      (valid_chunk fr tl = true ↔
        ((1 : ℚ) / 2 ≤ ((tl : ℕ) : ℚ) / 1000 ∧
          ((CHUNK_RMS_MIN : ℚ)) ^ 2 ≤ rmsSq fr.flatten)) := by
  intro vad i s f fr tl s2 t hstep hstart
  have htrig : s.triggered = true := by
    by_cases h : s.triggered = false
    · rw [step_idle vad i s f h] at hstep
      split at hstep <;> exact absurd hstep (by simp)
    · simpa using h
  rw [step_coll vad i s f htrig] at hstep
  split at hstep
  · cases hstep
    constructor
    · rw [hstart]
      rfl
    · unfold valid_chunk
      simp only [Bool.and_eq_true, decide_eq_true_eq]
      exact and_congr (min_sec_iff _).symm (chunk_energy_iff _)
  · exact absurd hstep (by simp)

/-- C4 witness: the amended validation characterisation at the
concrete end trigger of `sC4` (60 collected frames, full post-roll
window of zero frames, trigger recorded at index 5, current index
45). -/
theorem claim_C4_amended_witness :
    (1200 : ℕ) = (45 - 5) * FRAME_DURATION ∧
    (valid_chunk (List.replicate 60 zeroF ++ [zeroF] ++
          (List.replicate 39 zeroF ++ [zeroF])) 1200 = true ↔
      ((1 : ℚ) / 2 ≤ (((1200 : ℕ) : ℕ) : ℚ) / 1000 ∧
        ((CHUNK_RMS_MIN : ℚ)) ^ 2 ≤ rmsSq (List.replicate 60 zeroF ++ [zeroF] ++
          (List.replicate 39 zeroF ++ [zeroF])).flatten)) :=
  claim_C4_amended vadT 45 sC4 zeroF
    (List.replicate 60 zeroF ++ [zeroF] ++ (List.replicate 39 zeroF ++ [zeroF])) 1200
    (ListenState.mk true []
      (List.replicate 39 zeroF ++ [zeroF])
      (List.replicate 60 zeroF ++ [zeroF] ++ (List.replicate 39 zeroF ++ [zeroF]))
      (some 5))
    5 (by decide) rfl

end audio_utils

namespace audio_utils

/-- C5 counterexample: after a discard (66 VAD-positive zero-energy
frames: the capture completes but fails the energy gate), the detector
is idle with every buffer empty — but the start time is not cleared:
`chunk_start_time` still holds the stale trigger index 25, because the
discard branch never resets it.  (It is overwritten at the next start
trigger before any use.) -/
theorem claim_C5_counterexample :
    runLoop vadT 0 initState scenT
      = Sum.inr (ListenState.mk false [] [] [] (some 25)) ∧
    (ListenState.mk false [] [] [] (some 25)).chunk_start_time ≠ none := by
  constructor
  · decide
  · simp

/-- C5 amended: on an end trigger the call returns the concatenated
buffer exactly when the duration and energy checks pass, and otherwise
discards it silently and keeps consuming frames within the same call;
every buffer a call returns satisfies the energy gate; the discard
branch resets `triggered`, the collected storage and the post-roll
window (the pre-roll window is already empty while collecting, so all
buffers are empty afterwards), but leaves `chunk_start_time` stale
rather than clearing it. -/
theorem claim_C5_amended :
    (∀ (vad : Frame → Bool) (fs : List Frame) (i : ℕ) (s : ListenState) (c : List ℤ),
      runLoop vad i s fs = Sum.inl c → chunk_energy_ok c = true) ∧
    (∀ (vad : Frame → Bool) (i : ℕ) (s : ListenState) (f : Frame) (fr : List Frame)
        (tl : ℕ) (s2 : ListenState) (fs : List Frame),
      stepF vad i s f = StepRes.ended fr tl s2 →
      runLoop vad i s (f :: fs)
        = if valid_chunk fr tl then Sum.inl fr.flatten
          else runLoop vad (i + 1) (discardReset s2) fs) ∧
    (∀ s : ListenState, discardReset s
        = ListenState.mk false s.pre_buffer_frames [] [] s.chunk_start_time) ∧
    (∀ (vad : Frame → Bool) (i : ℕ) (s : ListenState) (f : Frame),
      stateInv s →
      (∀ s2, stepF vad i s f = StepRes.cont s2 → stateInv s2) ∧
      (∀ fr tl s2, stepF vad i s f = StepRes.ended fr tl s2 →
        discardReset s2 = ListenState.mk false [] [] [] s.chunk_start_time ∧
        stateInv (discardReset s2))) ∧
    stateInv initState := by
  refine ⟨?_, ?_, ?_, ?_, ?_⟩
  · intro vad fs
    induction fs with
    | nil =>
      intro i s c h
      simp [runLoop] at h
    | cons f fs ih =>
      intro i s c h
      cases hstep : stepF vad i s f with
      | cont s2 =>
        rw [runLoop_cons_cont fs hstep] at h
        exact ih (i + 1) s2 c h
      | ended fr tl s2 =>
        rw [runLoop_cons_ended fs hstep] at h
        by_cases hv : valid_chunk fr tl = true
        · rw [if_pos hv] at h
          cases h
          exact ((Bool.and_eq_true _ _).mp hv).2
        · rw [if_neg (by simpa using hv)] at h
          exact ih (i + 1) (discardReset s2) c h
  · intro vad i s f fr tl s2 fs hstep
    exact runLoop_cons_ended fs hstep
  · intro s
    rfl
  · intro vad i s f hInv
    by_cases htr : s.triggered = false
    · constructor
      · intro s2 hstep
        rw [step_idle vad i s f htr] at hstep
        split at hstep
        · cases hstep
          exact ⟨fun _ => rfl, fun h => by simp at h⟩
        · cases hstep
          exact ⟨fun h => by simp at h, fun _ => hInv.2 htr⟩
      · intro fr tl s2 hstep
        rw [step_idle vad i s f htr] at hstep
        split at hstep <;> exact absurd hstep (by simp)
    · have htr2 : s.triggered = true := by simpa using htr
      have hpre : s.pre_buffer_frames = [] := hInv.1 htr2
      constructor
      · intro s2 hstep
        rw [step_coll vad i s f htr2] at hstep
        split at hstep
        · exact absurd hstep (by simp)
        · cases hstep
          exact ⟨fun _ => hpre, fun h => by simp at h⟩
      · intro fr tl s2 hstep
        rw [step_coll vad i s f htr2] at hstep
        split at hstep
        · cases hstep
          refine ⟨?_, ?_⟩
          · simp [discardReset, hpre]
          · exact ⟨fun h => by simp [discardReset] at h, fun _ => ⟨rfl, rfl⟩⟩
        · exact absurd hstep (by simp)
  · exact ⟨fun h => by simp [initState] at h, fun _ => ⟨rfl, rfl⟩⟩

/-- C5 witness: the returned-buffers-are-valid part applied to the
Scenario A run (whose emitted chunk meets the energy gate), and the
emit-or-discard characterisation applied to the end trigger of
`sC4`. -/
theorem claim_C5_amended_witness :
    chunk_energy_ok chunkA.flatten = true ∧
    runLoop vadT 45 sC4 [zeroF]
      = if valid_chunk (List.replicate 60 zeroF ++ [zeroF] ++
            (List.replicate 39 zeroF ++ [zeroF])) 1200
        then Sum.inl (List.replicate 60 zeroF ++ [zeroF] ++
            (List.replicate 39 zeroF ++ [zeroF])).flatten
        else runLoop vadT 46 (discardReset (ListenState.mk true []
            (List.replicate 39 zeroF ++ [zeroF])
            (List.replicate 60 zeroF ++ [zeroF] ++ (List.replicate 39 zeroF ++ [zeroF]))
            (some 5))) [] :=
  ⟨claim_C5_amended.1 vadA scenA 0 initState chunkA.flatten runLoop_scenA,
    claim_C5_amended.2.1 vadT 45 sC4 zeroF
      (List.replicate 60 zeroF ++ [zeroF] ++ (List.replicate 39 zeroF ++ [zeroF])) 1200
      (ListenState.mk true [] (List.replicate 39 zeroF ++ [zeroF])
        (List.replicate 60 zeroF ++ [zeroF] ++ (List.replicate 39 zeroF ++ [zeroF]))
        (some 5))
      [] (by decide)⟩

end audio_utils

namespace audio_utils

/-- C1 counterexample: in Scenario A (26 silent, 20 voiced
high-energy, 40 non-voiced low-energy frames, default configuration)
the emitted utterance holds 50880 samples = 106 frames = 101760
bytes, not 86 frames = 41280 samples = 82560 bytes: on the end
trigger the source runs `voiced_frames.extend(post_buffer_frames)`
even though the post-roll window's frames were already appended on
arrival, so they appear twice. -/
theorem claim_C1_counterexample :
    (listen vadA scenA).map List.length = some 50880 ∧
    (50880 : ℕ) ≠ 86 * 480 ∧
    (2 * 50880 : ℕ) ≠ 86 * 960 := by
  refine ⟨?_, by norm_num, by norm_num⟩
  have hl : listen vadA scenA = some chunkA.flatten := by
    rw [listen, runLoop_scenA]
  rw [hl, Option.map_some', length_flatten_chunkA]

/-- C1 amended: on every end trigger the emitted frame list is the
collected storage (which already contains every post-roll frame)
followed by a second copy of the post-roll window, so the trailing
window is duplicated; consequently Scenario A emits 106 × 480 samples
(106 frames = 101760 bytes): trigger on the 15th voiced frame with a
26-frame look-back seed, end once the post-roll window holds 35
unvoiced of 40, duplicating those 40 frames. -/
theorem claim_C1_amended :
    (∀ (vad : Frame → Bool) (i : ℕ) (s : ListenState) (f : Frame) (fr : List Frame)
        (tl : ℕ) (s2 : ListenState),
      stepF vad i s f = StepRes.ended fr tl s2 →
      fr = (s.voiced_frames ++ [f]) ++ pushEvict post_n s.post_buffer_frames f) ∧
    (listen vadA scenA).map List.length = some (106 * 480) := by
  constructor
  · intro vad i s f fr tl s2 hstep
    have htrig : s.triggered = true := by
      by_cases h : s.triggered = false
      · rw [step_idle vad i s f h] at hstep
        split at hstep <;> exact absurd hstep (by simp)
      · simpa using h
    rw [step_coll vad i s f htrig] at hstep
    split at hstep
    · cases hstep
      rfl
    · exact absurd hstep (by simp)
  · have hl : listen vadA scenA = some chunkA.flatten := by
      rw [listen, runLoop_scenA]
    rw [hl, Option.map_some', length_flatten_chunkA]

/-- C1 witness: the duplication equation at the concrete end trigger
of `sC4` — the emitted 101 frames are the 61 collected ones followed
by a second copy of the 40-frame post-roll window. -/
theorem claim_C1_amended_witness :
    (List.replicate 60 zeroF ++ [zeroF] ++ (List.replicate 39 zeroF ++ [zeroF])
        : List Frame)
      = (sC4.voiced_frames ++ [zeroF]) ++ pushEvict post_n sC4.post_buffer_frames zeroF :=
  claim_C1_amended.1 vadT 45 sC4 zeroF
    (List.replicate 60 zeroF ++ [zeroF] ++ (List.replicate 39 zeroF ++ [zeroF])) 1200
    (ListenState.mk true [] (List.replicate 39 zeroF ++ [zeroF])
      (List.replicate 60 zeroF ++ [zeroF] ++ (List.replicate 39 zeroF ++ [zeroF]))
      (some 5))
    (by decide)

end audio_utils

namespace local_chess_client

/-- Unfolding lemma for the loop of `local_chess_client.listen`. -/
lemma runLoop_cons_lc (vad : Frame → Bool) (i : ℕ) (s : ListenState) (f : Frame) (fs : List Frame) :
    runLoop vad i s (f :: fs)
      = match stepF vad i s f with
        | StepRes.cont s2 => runLoop vad (i + 1) s2 fs
        | StepRes.ended frames tlen s2 =>
          if valid_chunk frames tlen then Sum.inl frames.flatten
          else runLoop vad (i + 1) (discardReset s2) fs := rfl

end local_chess_client

/-- C10: the two detector implementations — `listen` in
`src/audio_utils.py` and `listen` in `local_chess_client.py` — are
behaviourally equivalent: fed the same VAD classifier and the same
frames from any state, the loops make identical decisions and return
identical buffers (the sources differ only in prints and the start-up
beep). -/
theorem claim_C10 :
    (∀ (vad : Frame → Bool) (i : ℕ) (s : ListenState) (fs : List Frame),
      audio_utils.runLoop vad i s fs = local_chess_client.runLoop vad i s fs) ∧
    (∀ (vad : Frame → Bool) (fs : List Frame),
      audio_utils.listen vad fs = local_chess_client.listen vad fs) := by
  have h1 : ∀ (vad : Frame → Bool) (fs : List Frame) (i : ℕ) (s : ListenState),
      audio_utils.runLoop vad i s fs = local_chess_client.runLoop vad i s fs := by
    intro vad fs
    induction fs with
    | nil => intro i s; rfl
    | cons f fs ih =>
      intro i s
      rw [audio_utils.runLoop_cons, local_chess_client.runLoop_cons_lc]
      have hstep : audio_utils.stepF vad i s f = local_chess_client.stepF vad i s f := rfl
      rw [hstep]
      cases h : local_chess_client.stepF vad i s f with
      | cont s2 =>
        exact ih (i + 1) s2
      | ended fr tl s2 =>
        have hv : audio_utils.valid_chunk fr tl = local_chess_client.valid_chunk fr tl := rfl
        have hd : audio_utils.discardReset s2 = local_chess_client.discardReset s2 := rfl
        show (if audio_utils.valid_chunk fr tl then Sum.inl fr.flatten
            else audio_utils.runLoop vad (i + 1) (audio_utils.discardReset s2) fs)
          = (if local_chess_client.valid_chunk fr tl then Sum.inl fr.flatten
            else local_chess_client.runLoop vad (i + 1) (local_chess_client.discardReset s2) fs)
        rw [hv, hd]
        split
        · rfl
        · exact ih (i + 1) (local_chess_client.discardReset s2)
  refine ⟨fun vad i s fs => h1 vad fs i s, fun vad fs => ?_⟩
  rw [audio_utils.listen, local_chess_client.listen, h1 vad fs 0 initState]

/-!
Coherence of the two energy models: on the little-endian byte encoding
of in-range 16-bit samples, the byte-level `rms16` model computes
exactly the sample-level mean square used by the detector embedding.
-/

lemma int16OfPair_encode16 (x : ℤ) (hlo : -32768 ≤ x) (hhi : x < 32768) :
    int16OfPair ((x % 65536).toNat % 256) ((x % 65536).toNat / 256) = x := by
  have h0 : (0 : ℤ) ≤ x % 65536 := Int.emod_nonneg x (by norm_num)
  have hv : ((x % 65536).toNat : ℤ) = x % 65536 := Int.toNat_of_nonneg h0
  simp only [int16OfPair]
  rw [show (x % 65536).toNat % 256 % 256 + 256 * ((x % 65536).toNat / 256 % 256)
      = (x % 65536).toNat from by omega]
  split
  · rename_i h2
    have h3 : ((x % 65536).toNat : ℤ) < 32768 := by exact_mod_cast h2
    omega
  · rename_i h2
    have h3 : ¬ ((x % 65536).toNat : ℤ) < 32768 := by exact_mod_cast h2
    omega

lemma decodeInt16_encode16 :
    ∀ l : List ℤ, (∀ x ∈ l, -32768 ≤ x ∧ x < 32768) →
      decodeInt16 (encode16 l) = some l
  | [], _ => rfl
  | x :: rest, h => by
    have hx := h x (List.mem_cons_self x rest)
    have ih := decodeInt16_encode16 rest fun y hy => h y (List.mem_cons_of_mem x hy)
    simp only [encode16, decodeInt16, ih]
    rw [int16OfPair_encode16 x hx.1 hx.2]

lemma length_encode16 : ∀ l : List ℤ, (encode16 l).length = 2 * l.length
  | [] => rfl
  | x :: rest => by
    simp only [encode16, List.length_cons, length_encode16 rest]
    omega

namespace audio_utils

/-- On the byte encoding of in-range samples, the byte-level model of
`rms16` (squared) agrees with the sample-level mean square `rmsSq`
that the detector embedding compares against the squared
thresholds. -/
lemma rms16_sq_encode16 (l : List ℤ) (h : ∀ x ∈ l, -32768 ≤ x ∧ x < 32768) :
    rms16_sq (encode16 l) = some (rmsSq l) := by
  cases l with
  | nil => rfl
  | cons x rest =>
    have hlen : (encode16 (x :: rest)).length ≠ 0 := by
      rw [length_encode16]
      simp
    rw [rms16_sq, if_neg hlen, decodeInt16_encode16 _ h]
    simp

end audio_utils

end VoiceChess
